import Mathlib

/-!
# Verification of the YouTube content-extraction engine

A shallow embedding of `plugins/tools/youtube/youtube.go`: identifier
resolution via the two Go regular expressions, ISO-8601-style duration
parsing, caption-track selection, transcript post-processing, timestamp
formatting, the fail-fast `Grab` aggregator, and CSV playlist export.

Go's `regexp` package (RE2 with Perl submatch semantics) provides
leftmost-first unanchored search with preference-ordered alternation,
greedy/lazy repetition and capture groups.  The three patterns used by the
source only ever repeat single-character classes, so the embedding gives
repetition constructors specialised to character classes, keeping every
definition structurally recursive and hence evaluable by `rfl`/`decide`.
-/

namespace YoutubePlugin

/-- Capture list: group index paired with the captured characters.
Later captures are prepended; lookups take the most recent, matching Go. -/
abbrev Caps := List (Nat × List Char)

/-- Regex abstract syntax for the fragment of Go regexp used by the source:
literals, character classes, greedy star over a class (`starG`), lazy star
over a class (`starL`), greedy option, concatenation, preference-ordered
alternation, and capture groups. -/
inductive Re where
  | eps : Re
  | lit : List Char → Re
  | cls : (Char → Bool) → Re
  | starG : (Char → Bool) → Re
  | starL : (Char → Bool) → Re
  | opt : Re → Re
  | seq : Re → Re → Re
  | alt : Re → Re → Re
  | group : Nat → Re → Re

/-- First-success choice on `Option`, written out so proofs can unfold it. -/
def oOr (a b : Option Caps) : Option Caps :=
  match a with
  | some x => some x
  | none => b

/-- Greedy star over a character class, CPS style: consume as many
class characters as possible, backtracking to shorter consumptions. -/
def matchStarG (p : Char → Bool) : List Char → Caps → (List Char → Caps → Option Caps) → Option Caps
  | [], caps, k => k [] caps
  | x :: t, caps, k =>
      if p x then oOr (matchStarG p t caps k) (k (x :: t) caps)
      else k (x :: t) caps

/-- Lazy star over a character class: try the continuation first,
consuming a class character only when the continuation fails. -/
def matchStarL (p : Char → Bool) : List Char → Caps → (List Char → Caps → Option Caps) → Option Caps
  | [], caps, k => k [] caps
  | x :: t, caps, k =>
      oOr (k (x :: t) caps) (if p x then matchStarL p t caps k else none)

/-- Literal-prefix test, recursing on the literal first so that it
reduces even when the subject's tail is symbolic. -/
def litPrefix : List Char → List Char → Bool
  | [], _ => true
  | _ :: _, [] => false
  | a :: as, b :: bs => a == b && litPrefix as bs

/-- The backtracking matcher.  `reM re s caps k` matches `re` against a
prefix of `s`, calling continuation `k` with the remaining characters and
the capture list; alternatives are tried in preference order, so the
overall result is the first success in Go's leftmost-first order. -/
def reM : Re → List Char → Caps → (List Char → Caps → Option Caps) → Option Caps
  | .eps, s, caps, k => k s caps
  | .lit l, s, caps, k => if litPrefix l s then k (s.drop l.length) caps else none
  | .cls p, s, caps, k =>
      match s with
      | [] => none
      | x :: t => if p x then k t caps else none
  | .starG p, s, caps, k => matchStarG p s caps k
  | .starL p, s, caps, k => matchStarL p s caps k
  | .opt a, s, caps, k => oOr (reM a s caps k) (k s caps)
  | .seq a b, s, caps, k => reM a s caps (fun s2 c2 => reM b s2 c2 k)
  | .alt a b, s, caps, k => oOr (reM a s caps k) (reM b s caps k)
  | .group i a, s, caps, k =>
      reM a s caps (fun s2 c2 => k s2 ((i, s.take (s.length - s2.length)) :: c2))

/-- Accepting top-level continuation: an unanchored match may stop anywhere. -/
def reAccept : List Char → Caps → Option Caps := fun _ c => some c

/-- Unanchored leftmost search: try each start position left to right,
as Go's `FindStringSubmatch` does. -/
def reSearch (re : Re) : List Char → Option Caps
  | [] => reM re [] [] reAccept
  | x :: t => oOr (reM re (x :: t) [] reAccept) (reSearch re t)

/-- The text captured by group `i` (empty when the group did not
participate, matching Go's behaviour for a successful overall match). -/
def capOf (caps : Caps) (i : Nat) : List Char :=
  match caps.find? (fun pc => pc.1 == i) with
  | some pc => pc.2
  | none => []

/-- Go `FindStringSubmatch` restricted to group 1: `none` when the pattern
does not match anywhere, otherwise group 1's captured text. -/
def findGroup1 (re : Re) (s : List Char) : Option (List Char) :=
  match reSearch re s with
  | none => none
  | some caps => some (capOf caps 1)

/-! ## The three patterns of the source -/

/-- Literal helper. -/
def strLit (s : String) : Re := .lit s.data

/-- `[a-zA-Z0-9_-]`, the video/playlist identifier class. -/
def idChar (c : Char) : Bool :=
  ('a' ≤ c ∧ c ≤ 'z') ∨ ('A' ≤ c ∧ c ≤ 'Z') ∨ ('0' ≤ c ∧ c ≤ '9') ∨ c = '_' ∨ c = '-'

/-- Go regexp `\s` = `[\t\n\f\r ]`. -/
def goWs (c : Char) : Bool :=
  c = '\t' ∨ c = '\n' ∨ c = '\x0c' ∨ c = '\r' ∨ c = ' '

/-- `\S`. -/
def notWs (c : Char) : Bool := !goWs c

/-- `[^\/\n\s]`. -/
def notSlashWs (c : Char) : Bool := !(c = '/' ∨ goWs c)

/-- `[?&]`. -/
def qAmp (c : Char) : Bool := c = '?' ∨ c = '&'

/-- `\d`. -/
def isDig (c : Char) : Bool := '0' ≤ c ∧ c ≤ '9'

/-- `[^\/\n\s]+\/\S+\/` — the `user/channel/` style inner alternative. -/
def videoBranchPath : Re :=
  .seq (.cls notSlashWs) (.seq (.starG notSlashWs)
    (.seq (strLit "/") (.seq (.cls notWs) (.seq (.starG notWs) (strLit "/")))))

/-- `(?:v|e(?:mbed)?)\/`. -/
def videoBranchVE : Re :=
  .seq (.alt (strLit "v") (.seq (strLit "e") (.opt (strLit "mbed")))) (strLit "/")

/-- `\S*?[?&]v=`. -/
def videoBranchQuery : Re :=
  .seq (.starL notWs) (.seq (.cls qAmp) (strLit "v="))

/-- The inner alternation after `youtube.com/`:
`live\/|[^\/\n\s]+\/\S+\/|(?:v|e(?:mbed)?)\/|(?:s(?:horts)\/)|\S*?[?&]v=`. -/
def videoInnerAlt : Re :=
  .alt (strLit "live/") (.alt videoBranchPath (.alt videoBranchVE
    (.alt (strLit "shorts/") videoBranchQuery)))

/-- The video-id pattern of `GetVideoOrPlaylistId`:
`(?:https?:\/\/)?(?:www\.)?(?:youtube\.com\/(?:…)|youtu\.be\/)([a-zA-Z0-9_-]*)`. -/
def videoRe : Re :=
  .seq (.opt (.seq (strLit "http") (.seq (.opt (strLit "s")) (strLit "://"))))
    (.seq (.opt (strLit "www."))
      (.seq (.alt (.seq (strLit "youtube.com/") videoInnerAlt) (strLit "youtu.be/"))
        (.group 1 (.starG idChar))))

/-- The playlist pattern: `[?&]list=([a-zA-Z0-9_-]+)`. -/
def playlistRe : Re :=
  .seq (.cls qAmp) (.seq (strLit "list=") (.group 1 (.seq (.cls idChar) (.starG idChar))))

/-- `(?i)PT(?:(\d+)H)?(?:(\d+)M)?(?:(\d+)S)?` — case-insensitive. -/
def durationRe : Re :=
  .seq (.cls (fun c => c = 'p' ∨ c = 'P')) (.seq (.cls (fun c => c = 't' ∨ c = 'T'))
    (.seq (.opt (.seq (.group 1 (.seq (.cls isDig) (.starG isDig))) (.cls (fun c => c = 'h' ∨ c = 'H'))))
      (.seq (.opt (.seq (.group 2 (.seq (.cls isDig) (.starG isDig))) (.cls (fun c => c = 'm' ∨ c = 'M'))))
        (.opt (.seq (.group 3 (.seq (.cls isDig) (.starG isDig))) (.cls (fun c => c = 's' ∨ c = 'S')))))))

/-! ## Identifier resolution (`GetVideoOrPlaylistId`)

Modelled after successful service initialisation (the lazily constructed
API client is environment state outside the resolution logic). -/

/-- The video id extracted from a URL: group 1 of the video pattern, or
empty when the pattern does not match (`len(videoMatch) > 1` in the Go). -/
def videoIdOf (url : String) : String :=
  match findGroup1 videoRe url.data with
  | some g => String.mk g
  | none => ""

/-- The playlist id extracted from a URL. -/
def playlistIdOf (url : String) : String :=
  match findGroup1 playlistRe url.data with
  | some g => String.mk g
  | none => ""

/-- `GetVideoOrPlaylistId`: fails exactly when both extracted ids are empty. -/
def GetVideoOrPlaylistId (url : String) : Except String (String × String) :=
  if videoIdOf url = "" ∧ playlistIdOf url = "" then
    .error ("invalid YouTube URL, can\x27t get video or playlist ID: \x27" ++ url ++ "\x27")
  else
    .ok (videoIdOf url, playlistIdOf url)

/-! ## Duration parsing (`GrabDuration`) -/

/-- Go `strconv.Atoi` with the error ignored, as the source does: a
non-empty all-digit string parses to its value, anything else yields 0.
(Machine-integer overflow of absurdly long digit runs is elided.) -/
def atoiOr0 (s : List Char) : Nat :=
  if s ≠ [] ∧ s.all isDig then s.foldl (fun a c => a * 10 + (c.toNat - '0'.toNat)) 0 else 0

/-- The parsing half of `GrabDuration`: match the duration pattern and
convert to whole minutes as `hours*60 + minutes + seconds/60`. -/
def parseDurationMinutes (durationStr : String) : Except String Nat :=
  match reSearch durationRe durationStr.data with
  | none => .error ("invalid duration string: " ++ durationStr)
  | some caps =>
      .ok (atoiOr0 (capOf caps 1) * 60 + atoiOr0 (capOf caps 2) + atoiOr0 (capOf caps 3) / 60)

/-- `GrabDuration` after a successful API call, as a function of the
response item list (each item contributing its duration string).  The
source reads `videoResponse.Items[0]` with no emptiness check; `none`
models the runtime index-out-of-range panic on an empty item list. -/
def GrabDuration (items : List String) : Option (Except String Nat) :=
  match items with
  | [] => none
  | d :: _ => some (parseDurationMinutes d)

/-! ## Metadata (`GrabMetadata`) -/

/-- The snippet/statistics fields read from one platform API response item. -/
structure YtVideoItem where
  id : String
  title : String
  description : String
  publishedAt : String
  channelId : String
  channelTitle : String
  categoryId : String
  tags : List String
  viewCount : Nat
  likeCount : Nat
deriving DecidableEq

/-- The `VideoMetadata` record of the source. -/
structure VideoMetadata where
  Id : String
  Title : String
  Description : String
  PublishedAt : String
  ChannelId : String
  ChannelTitle : String
  CategoryId : String
  Tags : List String
  ViewCount : Nat
  LikeCount : Nat
deriving DecidableEq

/-- `GrabMetadata` after a successful API call, as a function of the
response item list: zero items is an error, otherwise the first item's
fields are mapped verbatim. -/
def GrabMetadata (videoId : String) (items : List YtVideoItem) : Except String VideoMetadata :=
  match items with
  | [] => .error ("no video found with ID: " ++ videoId)
  | v :: _ =>
      .ok ⟨v.id, v.title, v.description, v.publishedAt, v.channelId, v.channelTitle,
           v.categoryId, v.tags, v.viewCount, v.likeCount⟩

/-! ## The fail-fast aggregate (`Grab`)

The five per-field fetchers are network-backed; `Grab` is modelled as a
function of an environment carrying one oracle per fetcher.  Each oracle
returns `Except`; on error the corresponding Go fetcher returns its zero
value alongside the error, which the multiple-assignment in `Grab` writes
into the result field. -/

/-- The `Options` record of the source (field order as in the Go struct). -/
structure Options where
  Duration : Bool
  Transcript : Bool
  TranscriptWithTimestamps : Bool
  Comments : Bool
  Lang : String
  Metadata : Bool

/-- The `VideoInfo` aggregate of the source. -/
structure VideoInfo where
  Transcript : String
  Duration : Nat
  Comments : List String
  Metadata : Option VideoMetadata
deriving DecidableEq

/-- The zero-valued `&VideoInfo{}` the aggregate starts from. -/
def emptyVideoInfo : VideoInfo := ⟨"", 0, [], none⟩

/-- Oracles for the five per-field fetchers invoked by `Grab`.  The two
transcript oracles take the language argument the source passes. -/
structure GrabEnv where
  metadata : String → Except String VideoMetadata
  duration : String → Except String Nat
  comments : String → Except String (List String)
  transcript : String → String → Except String String
  transcriptWithTimestamps : String → String → Except String String

/-- `Grab`, step 5: the `options.TranscriptWithTimestamps` block.  The
transcript is fetched with the fixed language string `"en"`. -/
def grabFromTranscriptTS (env : GrabEnv) (videoId : String) (opts : Options)
    (ret : VideoInfo) : VideoInfo × Option String :=
  if opts.TranscriptWithTimestamps then
    match env.transcriptWithTimestamps videoId "en" with
    | .error e => ({ ret with Transcript := "" }, some e)
    | .ok t => ({ ret with Transcript := t }, none)
  else (ret, none)

/-- `Grab`, step 4: the `options.Transcript` block (fixed language `"en"`). -/
def grabFromTranscript (env : GrabEnv) (videoId : String) (opts : Options)
    (ret : VideoInfo) : VideoInfo × Option String :=
  if opts.Transcript then
    match env.transcript videoId "en" with
    | .error e => ({ ret with Transcript := "" }, some e)
    | .ok t => grabFromTranscriptTS env videoId opts { ret with Transcript := t }
  else grabFromTranscriptTS env videoId opts ret

/-- `Grab`, step 3: the `options.Comments` block. -/
def grabFromComments (env : GrabEnv) (videoId : String) (opts : Options)
    (ret : VideoInfo) : VideoInfo × Option String :=
  if opts.Comments then
    match env.comments videoId with
    | .error e => ({ ret with Comments := [] }, some ("error getting comments: " ++ e))
    | .ok cs => grabFromTranscript env videoId opts { ret with Comments := cs }
  else grabFromTranscript env videoId opts ret

/-- `Grab`, step 2: the `options.Duration` block. -/
def grabFromDuration (env : GrabEnv) (videoId : String) (opts : Options)
    (ret : VideoInfo) : VideoInfo × Option String :=
  if opts.Duration then
    match env.duration videoId with
    | .error e => ({ ret with Duration := 0 }, some ("error parsing video duration: " ++ e))
    | .ok d => grabFromComments env videoId opts { ret with Duration := d }
  else grabFromComments env videoId opts ret

/-- `Grab`, step 1: the `options.Metadata` block. -/
def grabFromMetadata (env : GrabEnv) (videoId : String) (opts : Options)
    (ret : VideoInfo) : VideoInfo × Option String :=
  if opts.Metadata then
    match env.metadata videoId with
    | .error e => ({ ret with Metadata := none }, some ("error getting video metadata: " ++ e))
    | .ok m => grabFromDuration env videoId opts { ret with Metadata := some m }
  else grabFromDuration env videoId opts ret

/-- The fail-fast aggregate `Grab`: resolve the identifier once, reject a
playlist-only URL, then evaluate the requested fields in the fixed order
Metadata, Duration, Comments, Transcript, TranscriptWithTimestamps,
returning at the first failure with the partially populated result. -/
def Grab (env : GrabEnv) (url : String) (options : Options) :
    Option VideoInfo × Option String :=
  match GetVideoOrPlaylistId url with
  | .error e => (none, some e)
  | .ok (videoId, playlistId) =>
      if videoId = "" ∧ playlistId ≠ "" then (none, some "URL is a playlist, not a video")
      else
        let r := grabFromMetadata env videoId options emptyVideoInfo
        (some r.1, r.2)

/-! ## Timestamp formatting (`formatTimestamp`)

The source takes a `float64` seconds value and converts with `int(...)`,
which truncates toward zero; we model the real-valued input as a rational
and the conversion as floor/ceil by sign.  `/` and `%` on Go ints are
truncated division and remainder, i.e. `Int.tdiv`/`Int.tmod`. -/

/-- Go `int(f)`: truncation toward zero. -/
def intOfRat (q : ℚ) : Int := if 0 ≤ q then ⌊q⌋ else ⌈q⌉

/-- Go `fmt.Sprintf("%02d", n)`: decimal, left-padded with `0` to width 2. -/
def fmt02 (n : Int) : String :=
  let s := toString n
  if s.length < 2 then "0" ++ s else s

/-- `formatTimestamp`: zero-padded `HH:MM:SS` by integer truncation. -/
def formatTimestamp (seconds : ℚ) : String :=
  let n := intOfRat seconds
  let hours := Int.tdiv n 3600
  let minutes := Int.tdiv (Int.tmod n 3600) 60
  let secs := Int.tmod n 60
  fmt02 hours ++ ":" ++ fmt02 minutes ++ ":" ++ fmt02 secs

/-! ## Caption-track selection (from `GrabTranscriptBase`)

The source parses each track's `baseUrl` with `net/url` and reads the
`lang` query parameter.  The query-string fragment of `net/url` used here
is modelled for escape-free URLs: `RawQuery` is the part after the first
`?` (before any `#`), and `ParseQuery` splits it on `&`, each piece
splitting at its first `=`, empty pieces skipped. -/

/-- Split a character list on a separator character. -/
def splitOnChar (sep : Char) : List Char → List (List Char)
  | [] => [[]]
  | c :: t =>
      let r := splitOnChar sep t
      if c = sep then [] :: r
      else
        match r with
        | [] => [[c]]
        | h :: t2 => (c :: h) :: t2

/-- Characters strictly after the first occurrence of `sep` ([] if none). -/
def afterChar (sep : Char) : List Char → List Char
  | [] => []
  | c :: t => if c = sep then t else afterChar sep t

/-- Characters before the first occurrence of `sep` (all if none). -/
def beforeChar (sep : Char) : List Char → List Char
  | [] => []
  | c :: t => if c = sep then [] else c :: beforeChar sep t

/-- `url.Parse(u).RawQuery` for escape-free URLs. -/
def rawQuery (u : List Char) : List Char := beforeChar '#' (afterChar '?' u)

/-- The first value of the `lang` query parameter of a track's base URL,
`none` when the parameter is absent (`ParseQuery` keeps values in
appearance order; the source reads `langParam[0]`). -/
def langOf (baseURL : String) : Option String :=
  let pieces := splitOnChar '&' (rawQuery baseURL.data)
  let langs := pieces.filterMap (fun p =>
    if p ≠ [] ∧ beforeChar '=' p = ("lang".data) then some (afterChar '=' p) else none)
  match langs with
  | [] => none
  | v :: _ => some (String.mk v)

/-- The empty-URL guard after selection: the source hard-fails when the
selected `finalTranscriptURL` is still the empty string. -/
def guardTranscriptURL (finalTranscriptURL : String) : Except String String :=
  if finalTranscriptURL = "" then
    .error "no suitable transcript URL found after parsing captionTracks"
  else .ok finalTranscriptURL

/-- Track selection of `GrabTranscriptBase`: the first track whose `lang`
parameter equals the requested language, else the first track in list
order, followed by the empty-URL guard.  `finalTranscriptURL` stays empty
for an empty track list (the source enters selection only for a non-empty
list, but the guard is part of the selection logic). -/
def selectCaptionTrackURL (tracks : List String) (language : String) : Except String String :=
  guardTranscriptURL
    (match tracks.find? (fun t => langOf t == some language) with
     | some t => t
     | none => (tracks.head?).getD "")

/-! ## Plain transcript assembly (`GrabTranscript`)

After fetching, the source parses the caption document and iterates over
its `<text>` nodes; we model the document by the list of node text
contents.  Each text has `&#39;` unescaped via `strings.ReplaceAll` and a
single space appended to the builder. -/

/-- Go `strings.ReplaceAll(s, "&#39;", "'")`: leftmost non-overlapping
occurrences, scanning resumes after each replacement. -/
def replaceApos : List Char → List Char
  | '&' :: '#' :: '3' :: '9' :: ';' :: rest => '\x27' :: replaceApos rest
  | c :: rest => c :: replaceApos rest
  | [] => []

/-- String version of `replaceApos`. -/
def replaceAposS (s : String) : String := String.mk (replaceApos s.data)

/-- The builder loop of `GrabTranscript`: append each node's unescaped
text followed by a space (zero nodes leave the empty string). -/
def GrabTranscript (texts : List String) : String :=
  texts.foldl (fun b t => b ++ replaceAposS t ++ " ") ""

/-- The transcript the spec's words describe: node texts joined by a
single separating space.  Modelled from the spec: "concatenate the text
content of every caption node, separated by a single space". -/
def specTranscript (texts : List String) : String :=
  String.intercalate " " (texts.map replaceAposS)

/-- Boolean scanner for the entity `&#39;` occurring anywhere in a string. -/
def hasAposEntity : List Char → Bool
  | '&' :: '#' :: '3' :: '9' :: ';' :: _ => true
  | _ :: t => hasAposEntity t
  | [] => false

/-! ## CSV export (`SaveVideosToCSV`)

The source writes a header row then one row per item through
`encoding/csv` with the default comma and `UseCRLF=false`.  The writer and
reader of `encoding/csv` are modelled for that configuration: a field is
quoted when required, quotes are doubled, records end in `\n`; the reader
first converts every `\r\n` sequence of its input to `\n` (documented
behaviour) and then parses fields, unescaping doubled quotes. -/

/-- The `VideoMeta` record of the source. -/
structure VideoMeta where
  Id : String
  Title : String
  TitleNormalized : String
deriving DecidableEq

/-- `unicode.IsSpace` on the characters relevant to field quoting. -/
def goUnicodeSpace (c : Char) : Bool :=
  c = ' ' ∨ c = '\t' ∨ c = '\n' ∨ c = '\x0b' ∨ c = '\x0c' ∨ c = '\r' ∨
  c = '\x85' ∨ c = '\xa0'

/-- `fieldNeedsQuotes` of `encoding/csv` for the default comma: empty
fields are bare; the literal `\.` is quoted; a comma, quote, CR or LF
forces quotes; so does a leading space character. -/
def fieldNeedsQuotes (f : List Char) : Bool :=
  if f = [] then false
  else if f = ['\\', '.'] then true
  else if f.any (fun c => c = ',' ∨ c = '"' ∨ c = '\r' ∨ c = '\n') then true
  else match f with
    | [] => false
    | c :: _ => goUnicodeSpace c

/-- Double every quote character (the writer's quoted-field escaping;
with `UseCRLF=false` CR and LF are written through verbatim). -/
def escapeQuotes : List Char → List Char
  | [] => []
  | '"' :: t => '"' :: '"' :: escapeQuotes t
  | c :: t => c :: escapeQuotes t

/-- One field as the writer emits it. -/
def encodeField (f : List Char) : List Char :=
  if fieldNeedsQuotes f then '"' :: (escapeQuotes f ++ ['"']) else f

/-- One record as the writer emits it: fields joined by commas, `\n`. -/
def encodeRecord (fields : List (List Char)) : List Char :=
  (List.intercalate [','] (fields.map encodeField)) ++ ['\n']

/-- `SaveVideosToCSV` as the content written to the created file: the
fixed header row, then one row of raw id and raw title per item. -/
def SaveVideosToCSV (videos : List VideoMeta) : String :=
  String.mk (encodeRecord ["VideoID".data, "Title".data] ++
    (videos.map (fun v => encodeRecord [v.Id.data, v.Title.data])).flatten)

/-- The reader's documented global normalisation: every `\r\n` → `\n`. -/
def normCRLF : List Char → List Char
  | '\r' :: '\n' :: rest => '\n' :: normCRLF rest
  | c :: rest => c :: normCRLF rest
  | [] => []

/-- Reader parse state: at a field boundary, inside a bare field, inside
a quoted field, or just after a quote inside a quoted field. -/
inductive CsvMode where
  | atField : CsvMode
  | bare : CsvMode
  | quoted : CsvMode
  | afterQuote : CsvMode
deriving DecidableEq

/-- Reader state: completed records, completed fields of the current
record, characters of the current field, mode, and a sticky error flag
(bare quote in an unquoted field, or a quote not at a field end). -/
structure CsvState where
  records : List (List String)
  current : List String
  field : List Char
  mode : CsvMode
  failed : Bool
deriving DecidableEq

/-- Initial reader state. -/
def csvInit : CsvState := ⟨[], [], [], .atField, false⟩

/-- One character of the reader (input already CRLF-normalised).  A `\n`
at a field boundary with no fields yet is a skipped blank line. -/
def csvStep (st : CsvState) (c : Char) : CsvState :=
  if st.failed then st
  else match st.mode with
  | .atField =>
      if c = '"' then { st with mode := .quoted }
      else if c = ',' then { st with current := st.current ++ [""] }
      else if c = '\n' then
        match st.current with
        | [] => st
        | _ => { st with records := st.records ++ [st.current ++ [""]], current := [] }
      else { st with mode := .bare, field := [c] }
  | .bare =>
      if c = '"' then { st with failed := true }
      else if c = ',' then
        { st with current := st.current ++ [String.mk st.field], field := [], mode := .atField }
      else if c = '\n' then
        { st with records := st.records ++ [st.current ++ [String.mk st.field]],
                  current := [], field := [], mode := .atField }
      else { st with field := st.field ++ [c] }
  | .quoted =>
      if c = '"' then { st with mode := .afterQuote }
      else { st with field := st.field ++ [c] }
  | .afterQuote =>
      if c = '"' then { st with field := st.field ++ ['"'], mode := .quoted }
      else if c = ',' then
        { st with current := st.current ++ [String.mk st.field], field := [], mode := .atField }
      else if c = '\n' then
        { st with records := st.records ++ [st.current ++ [String.mk st.field]],
                  current := [], field := [], mode := .atField }
      else { st with failed := true }

/-- Finalise at end of input: an unterminated quoted field is an error; a
pending bare/closed field ends a final unterminated record; a pending
comma at a field boundary contributes a final empty field. -/
def csvFinish (st : CsvState) : Option (List (List String)) :=
  if st.failed then none
  else match st.mode with
  | .quoted => none
  | .bare => some (st.records ++ [st.current ++ [String.mk st.field]])
  | .afterQuote => some (st.records ++ [st.current ++ [String.mk st.field]])
  | .atField =>
      match st.current with
      | [] => some st.records
      | _ => some (st.records ++ [st.current ++ [""]])

/-- `encoding/csv` `ReadAll` on the given file content. -/
def readCSV (content : String) : Option (List (List String)) :=
  csvFinish ((normCRLF content.data).foldl csvStep csvInit)

/-! # Claims -/

/-- Claim C4: duration parsing converts to whole minutes as
`hours*60 + minutes + seconds div 60` with seconds truncated:
`"PT1H2M3S"` yields 62, `"PT15S"` yields 0, `"PT"` (all optional groups
absent) yields 0 without error, `"PT1H90S"` yields 61 (truncation), and a
string with no matching structure at all fails with the invalid-duration
error. -/
theorem claim_C4_duration_parse :
    parseDurationMinutes "PT1H2M3S" = .ok 62 ∧
    parseDurationMinutes "PT15S" = .ok 0 ∧
    parseDurationMinutes "PT" = .ok 0 ∧
    parseDurationMinutes "PT1H90S" = .ok 61 ∧
    (∀ s : String,
      (∃ m, parseDurationMinutes s = .error m) ↔ reSearch durationRe s.data = none) := by
  refine ⟨rfl, rfl, rfl, rfl, ?_⟩
  intro s
  constructor
  · rintro ⟨m, hm⟩
    by_contra hn
    rcases h : reSearch durationRe s.data with _ | caps
    · exact hn h
    · rw [parseDurationMinutes, h] at hm
      exact Except.noConfusion hm
  · intro h
    rw [parseDurationMinutes, h]
    exact ⟨_, rfl⟩

/-- Claim C10: `GrabDuration` reads the first response item with no
emptiness check — an empty item list is a runtime panic (modelled `none`),
never an error value, while any non-empty item list produces a value; by
contrast `GrabMetadata` maps an empty item list to its not-found error. -/
theorem claim_C10_duration_unchecked_access :
    GrabDuration [] = none ∧
    (∀ items : List String, items ≠ [] → (GrabDuration items).isSome = true) ∧
    (∀ videoId : String,
      GrabMetadata videoId [] = .error ("no video found with ID: " ++ videoId)) := by
  refine ⟨rfl, ?_, fun _ => rfl⟩
  intro items h
  cases items with
  | nil => exact absurd rfl h
  | cons d t => rfl

/-- Witness for C10 at the one-item list `["PT1M"]`. -/
theorem claim_C10_witness : (GrabDuration ["PT1M"]).isSome = true :=
  claim_C10_duration_unchecked_access.2.1 ["PT1M"] (by decide)

/-- Claim C7: `formatTimestamp` formats seconds as zero-padded `HH:MM:SS`
with integer truncation: 0 ↦ "00:00:00", 3661 ↦ "01:01:01", and every
value in [61, 62) — in particular the float 61.9 — maps to "00:01:01",
truncated rather than rounded. -/
theorem claim_C7_formatTimestamp :
    formatTimestamp 0 = "00:00:00" ∧ formatTimestamp 3661 = "01:01:01" ∧
    ∀ q : ℚ, 61 ≤ q → q < 62 → formatTimestamp q = "00:01:01" := by
  refine ⟨rfl, rfl, ?_⟩
  intro q h1 h2
  have h0 : (0 : ℚ) ≤ q := le_trans (by norm_num) h1
  have hf : ⌊q⌋ = (61 : ℤ) := by
    rw [Int.floor_eq_iff]
    refine ⟨by exact_mod_cast h1, ?_⟩
    push_cast
    linarith
  rw [formatTimestamp, intOfRat, if_pos h0, hf]
  rfl

/-- Witness for C7 at the rational value 61.9. -/
theorem claim_C7_witness : formatTimestamp (619 / 10 : ℚ) = "00:01:01" :=
  claim_C7_formatTimestamp.2.2 (619 / 10) (by norm_num) (by norm_num)

/-- Claim C5 (counterexample): a non-empty track list can fail the
selection stage — with the single track `""` no `lang` parameter matches,
the fallback first URL is empty, and the guard hard-fails. -/
theorem claim_C5_counterexample :
    selectCaptionTrackURL [""] "en" =
      .error "no suitable transcript URL found after parsing captionTracks" :=
  rfl

/-- Claim C5 (amended): track selection picks the track whose `lang`
query parameter equals the requested language, else falls back to the
first track in list order: for tracks `[lang=es, lang=en]`, requesting
"en" selects the second and requesting "fr" the first; a non-empty track
list whose URLs are all non-empty never fails to select, while an empty
selected URL is a hard error. -/
theorem claim_C5_track_selection :
    selectCaptionTrackURL
      ["https://www.youtube.com/api/timedtext?v=abc&lang=es",
       "https://www.youtube.com/api/timedtext?v=abc&lang=en"] "en" =
      .ok "https://www.youtube.com/api/timedtext?v=abc&lang=en" ∧
    selectCaptionTrackURL
      ["https://www.youtube.com/api/timedtext?v=abc&lang=es",
       "https://www.youtube.com/api/timedtext?v=abc&lang=en"] "fr" =
      .ok "https://www.youtube.com/api/timedtext?v=abc&lang=es" ∧
    ∀ (tracks : List String) (language : String), tracks ≠ [] →
      (∀ t ∈ tracks, t ≠ "") →
      (selectCaptionTrackURL tracks language).isOk = true := by
  refine ⟨rfl, rfl, ?_⟩
  intro tracks language hne hall
  rw [selectCaptionTrackURL]
  rcases hf : tracks.find? (fun t => langOf t == some language) with _ | t
  · rcases tracks with _ | ⟨t0, rest⟩
    · exact absurd rfl hne
    · show (guardTranscriptURL t0).isOk = true
      rw [guardTranscriptURL, if_neg (hall t0 (List.mem_cons_self _ _))]
      rfl
  · show (guardTranscriptURL t).isOk = true
    rw [guardTranscriptURL, if_neg (hall t (List.mem_of_find?_eq_some hf))]
    rfl

/-- Witness for C5 at a one-track list with a non-empty URL. -/
theorem claim_C5_witness :
    (selectCaptionTrackURL ["https://x.example/?lang=de"] "en").isOk = true :=
  claim_C5_track_selection.2.2 ["https://x.example/?lang=de"] "en" (by decide) (by decide)

/-- Claim C1: `Grab` evaluates requested fields in the fixed order
Metadata, Duration, Comments, Transcript, TranscriptWithTimestamps,
returning at the first failure with all earlier fields populated and
later fetchers never invoked (the comment/transcript oracles are
universally quantified, so the result cannot depend on them).  In
particular, for options Metadata+Duration with the duration fetch
failing, the result has Metadata populated, Duration zero-valued and the
wrapped duration error. -/
theorem claim_C1_fail_fast :
    (∀ (env : GrabEnv) (url lang vid pid : String) (md : VideoMetadata) (e : String),
      GetVideoOrPlaylistId url = .ok (vid, pid) → vid ≠ "" →
      env.metadata vid = .ok md → env.duration vid = .error e →
      Grab env url ⟨true, false, false, false, lang, true⟩ =
        (some ⟨"", 0, [], some md⟩, some ("error parsing video duration: " ++ e))) ∧
    (∀ (env : GrabEnv) (url lang vid pid e : String),
      GetVideoOrPlaylistId url = .ok (vid, pid) → vid ≠ "" →
      env.metadata vid = .error e →
      Grab env url ⟨true, true, true, true, lang, true⟩ =
        (some ⟨"", 0, [], none⟩, some ("error getting video metadata: " ++ e))) ∧
    (∀ (env : GrabEnv) (url lang vid pid : String) (md : VideoMetadata) (d : Nat) (e : String),
      GetVideoOrPlaylistId url = .ok (vid, pid) → vid ≠ "" →
      env.metadata vid = .ok md → env.duration vid = .ok d → env.comments vid = .error e →
      Grab env url ⟨true, true, true, true, lang, true⟩ =
        (some ⟨"", d, [], some md⟩, some ("error getting comments: " ++ e))) := by
  refine ⟨?_, ?_, ?_⟩
  · intro env url lang vid pid md e hres hv hm hd
    have hc : ¬(vid = "" ∧ pid ≠ "") := fun h => hv h.1
    rw [Grab, hres]
    simp only [hc, if_false, if_neg hc]
    simp [grabFromMetadata, hm, grabFromDuration, hd, emptyVideoInfo]
  · intro env url lang vid pid e hres hv hm
    have hc : ¬(vid = "" ∧ pid ≠ "") := fun h => hv h.1
    rw [Grab, hres]
    simp only [hc, if_false, if_neg hc]
    simp [grabFromMetadata, hm, emptyVideoInfo]
  · intro env url lang vid pid md d e hres hv hm hd hcm
    have hc : ¬(vid = "" ∧ pid ≠ "") := fun h => hv h.1
    rw [Grab, hres]
    simp only [hc, if_false, if_neg hc]
    simp [grabFromMetadata, hm, grabFromDuration, hd, grabFromComments, hcm, emptyVideoInfo]

/-- Witness for C1: a concrete environment whose duration fetch fails. -/
theorem claim_C1_witness :
    Grab
      ⟨fun _ => .ok ⟨"abc", "t", "d", "p", "c", "ct", "cat", [], 5, 2⟩,
       fun _ => .error "boom",
       fun _ => .ok ["hi"],
       fun _ _ => .ok "tr",
       fun _ _ => .ok "ts"⟩
      "https://youtu.be/abc" ⟨true, false, false, false, "fr", true⟩ =
      (some ⟨"", 0, [], some ⟨"abc", "t", "d", "p", "c", "ct", "cat", [], 5, 2⟩⟩,
       some ("error parsing video duration: " ++ "boom")) :=
  claim_C1_fail_fast.1 _ "https://youtu.be/abc" "fr" "abc" "" _ "boom"
    (by rfl) (by decide) rfl rfl

/-- Transcript-oracle congruence along the field chain: the chain applies
the transcript oracles only at language "en". -/
theorem grabChain_transcript_en (env : GrabEnv)
    (t1 t2 ts1 ts2 : String → String → Except String String)
    (vid : String) (opts : Options) (ret : VideoInfo)
    (h1 : t1 vid "en" = t2 vid "en") (h2 : ts1 vid "en" = ts2 vid "en") :
    grabFromMetadata { env with transcript := t1, transcriptWithTimestamps := ts1 }
      vid opts ret =
    grabFromMetadata { env with transcript := t2, transcriptWithTimestamps := ts2 }
      vid opts ret := by
  simp only [grabFromMetadata, grabFromDuration, grabFromComments, grabFromTranscript,
    grabFromTranscriptTS]
  rw [h1, h2]

/-- Claim C9: the aggregate fetches both transcripts with the fixed
language "en": its result is invariant under the `Lang` option field, and
depends on the transcript oracles only through their value at "en". -/
theorem claim_C9_fixed_language :
    (∀ (env : GrabEnv) (url : String) (opts : Options) (l1 l2 : String),
      Grab env url { opts with Lang := l1 } = Grab env url { opts with Lang := l2 }) ∧
    (∀ (env : GrabEnv) (t1 t2 ts1 ts2 : String → String → Except String String)
        (url : String) (opts : Options),
      (∀ v, t1 v "en" = t2 v "en") → (∀ v, ts1 v "en" = ts2 v "en") →
      Grab { env with transcript := t1, transcriptWithTimestamps := ts1 } url opts =
      Grab { env with transcript := t2, transcriptWithTimestamps := ts2 } url opts) := by
  constructor
  · intro env url opts l1 l2
    rfl
  · intro env t1 t2 ts1 ts2 url opts h1 h2
    rw [Grab, Grab]
    rcases hres : GetVideoOrPlaylistId url with e | p
    · rfl
    · obtain ⟨vid, pid⟩ := p
      by_cases hc : vid = "" ∧ pid ≠ ""
      · simp only [if_pos hc]
      · simp only [if_neg hc]
        rw [grabChain_transcript_en env t1 t2 ts1 ts2 vid opts emptyVideoInfo
          (h1 vid) (h2 vid)]

/-! ### C2: when identifier resolution fails -/

/-- Inversion for first-success choice. -/
theorem oOr_eq_some {a b : Option Caps} {r : Caps} (h : oOr a b = some r) :
    a = some r ∨ (a = none ∧ b = some r) := by
  cases a with
  | none => exact Or.inr ⟨rfl, h⟩
  | some x => exact Or.inl h

/-- A successful greedy star hands the continuation a suffix of its input
with the capture list unchanged. -/
theorem matchStarG_some {p : Char → Bool} {s : List Char} {caps : Caps}
    {k : List Char → Caps → Option Caps} {r : Caps} :
    matchStarG p s caps k = some r → ∃ s', s' <:+ s ∧ k s' caps = some r := by
  induction s with
  | nil =>
    intro h
    exact ⟨[], List.suffix_refl _, h⟩
  | cons x t ih =>
    intro h
    rw [matchStarG] at h
    by_cases hp : p x
    · rw [if_pos hp] at h
      rcases oOr_eq_some h with h1 | ⟨_, h2⟩
      · obtain ⟨s', hs', hk⟩ := ih h1
        exact ⟨s', hs'.trans (List.suffix_cons x t), hk⟩
      · exact ⟨x :: t, List.suffix_refl _, h2⟩
    · rw [if_neg hp] at h
      exact ⟨x :: t, List.suffix_refl _, h⟩

/-- A successful unanchored search succeeds anchored at some suffix. -/
theorem reSearch_some {re : Re} {s : List Char} {caps : Caps} :
    reSearch re s = some caps → ∃ s', s' <:+ s ∧ reM re s' [] reAccept = some caps := by
  induction s with
  | nil =>
    intro h
    exact ⟨[], List.suffix_refl _, h⟩
  | cons x t ih =>
    intro h
    rw [reSearch] at h
    rcases oOr_eq_some h with h1 | ⟨_, h2⟩
    · exact ⟨x :: t, List.suffix_refl _, h1⟩
    · obtain ⟨s', hs', hm⟩ := ih h2
      exact ⟨s', hs'.trans (List.suffix_cons x t), hm⟩

/-- The playlist pattern's `+`-group always captures at least one
character: any successful anchored match produces a non-empty group 1. -/
theorem playlist_caps {s : List Char} {caps : Caps}
    (h : reM playlistRe s [] reAccept = some caps) :
    ∃ g, caps = [(1, g)] ∧ g ≠ [] := by
  rcases s with _ | ⟨x, t⟩
  · exact Option.noConfusion h
  · have h1 : (if qAmp x then
        reM (.seq (strLit "list=") (.group 1 (.seq (.cls idChar) (.starG idChar))))
          t [] reAccept
      else none) = some caps := h
    by_cases hq : qAmp x
    · rw [if_pos hq] at h1
      have h2 : (if litPrefix ("list=".data) t then
          reM (.group 1 (.seq (.cls idChar) (.starG idChar)))
            (t.drop ("list=".data).length) [] reAccept
        else none) = some caps := h1
      by_cases hl : litPrefix ("list=".data) t
      · rw [if_pos hl] at h2
        rcases h5 : t.drop ("list=".data).length with _ | ⟨y, t2⟩
        · rw [h5] at h2
          exact Option.noConfusion h2
        · rw [h5] at h2
          have h4 : (if idChar y then
              matchStarG idChar t2 []
                (fun s3 c3 =>
                  reAccept s3 ((1, (y :: t2).take ((y :: t2).length - s3.length)) :: c3))
            else none) = some caps := h2
          by_cases hy : idChar y
          · rw [if_pos hy] at h4
            obtain ⟨s2, hs2, hk⟩ := matchStarG_some h4
            have hlen : s2.length ≤ t2.length := hs2.length_le
            have hcaps : caps = [(1, (y :: t2).take ((y :: t2).length - s2.length))] :=
              ((Option.some.injEq _ _).mp hk).symm
            refine ⟨(y :: t2).take ((y :: t2).length - s2.length), hcaps, ?_⟩
            have hlen2 : (y :: t2).length - s2.length = t2.length - s2.length + 1 := by
              simp only [List.length_cons]
              omega
            rw [hlen2, List.take_succ_cons]
            simp
          · rw [if_neg hy] at h4
            exact Option.noConfusion h4
      · rw [if_neg hl] at h2
        exact Option.noConfusion h2
    · rw [if_neg hq] at h1
      exact Option.noConfusion h1

/-- The extracted playlist id is empty exactly when the playlist pattern
matches nowhere in the URL. -/
theorem playlistIdOf_empty_iff (url : String) :
    playlistIdOf url = "" ↔ reSearch playlistRe url.data = none := by
  constructor
  · intro h
    rcases hs : reSearch playlistRe url.data with _ | caps
    · rfl
    · obtain ⟨s2, _, hm⟩ := reSearch_some hs
      obtain ⟨g, hg, hgne⟩ := playlist_caps hm
      have hfg : findGroup1 playlistRe url.data = some (capOf caps 1) := by
        rw [findGroup1, hs]
      have hpl : playlistIdOf url = String.mk (capOf caps 1) := by
        rw [playlistIdOf, hfg]
      rw [hpl, hg] at h
      have hcap : capOf [(1, g)] 1 = g := rfl
      rw [hcap] at h
      exact absurd (congrArg String.data h) hgne
  · intro h
    rw [playlistIdOf, findGroup1, h]

/-- The extracted video id is empty exactly when the video pattern either
matches nowhere or matches with an empty group-1 capture. -/
theorem videoIdOf_empty_iff (url : String) :
    videoIdOf url = "" ↔
      (findGroup1 videoRe url.data = none ∨ findGroup1 videoRe url.data = some []) := by
  rw [videoIdOf]
  rcases h : findGroup1 videoRe url.data with _ | g
  · simp
  · simp only [h, Option.some.injEq]
    constructor
    · intro hg
      right
      have hg2 : g = [] := congrArg String.data hg
      rw [hg2]
    · rintro (h1 | h1)
      · exact absurd h1 (by simp)
      · rw [h1]

/-- Claim C2 (counterexample): on `"youtu.be/"` the video pattern does
match (with an empty capture), yet resolution still fails — so failure is
not equivalent to "neither pattern matches anywhere". -/
theorem claim_C2_counterexample :
    findGroup1 videoRe ("youtu.be/".data) = some [] ∧
    GetVideoOrPlaylistId "youtu.be/" =
      .error "invalid YouTube URL, can\x27t get video or playlist ID: \x27youtu.be/\x27" :=
  ⟨rfl, rfl⟩

/-- Claim C2 (amended): resolution fails exactly when the video pattern
yields no non-empty group-1 capture (no match, or an empty capture) and
the playlist pattern matches nowhere; on success at least one of the two
ids is non-empty. -/
theorem claim_C2_resolution_failure (url : String) :
    ((∃ e, GetVideoOrPlaylistId url = .error e) ↔
      ((findGroup1 videoRe url.data = none ∨ findGroup1 videoRe url.data = some []) ∧
        reSearch playlistRe url.data = none)) ∧
    (∀ v p, GetVideoOrPlaylistId url = .ok (v, p) → ¬(v = "" ∧ p = "")) := by
  rw [GetVideoOrPlaylistId]
  by_cases hc : videoIdOf url = "" ∧ playlistIdOf url = ""
  · rw [if_pos hc]
    constructor
    · exact ⟨fun _ => ⟨(videoIdOf_empty_iff url).mp hc.1,
        (playlistIdOf_empty_iff url).mp hc.2⟩, fun _ => ⟨_, rfl⟩⟩
    · intro v p hvp
      exact Except.noConfusion hvp
  · rw [if_neg hc]
    constructor
    · constructor
      · rintro ⟨e, he⟩
        exact Except.noConfusion he
      · rintro ⟨h1, h2⟩
        exact absurd ⟨(videoIdOf_empty_iff url).mpr h1,
          (playlistIdOf_empty_iff url).mpr h2⟩ hc
    · intro v p hvp
      rcases hvp with ⟨⟩
      exact hc

/-- Witness for C2 at the URL `"https://youtu.be/abc"`. -/
theorem claim_C2_witness : ¬("abc" = "" ∧ "" = "") :=
  (claim_C2_resolution_failure "https://youtu.be/abc").2 "abc" "" (by rfl)

/-! ### C3: resolution of `watch?v=` URLs

`"watch?v=X"` alone does not resolve (the pattern requires a
`youtube.com/` or `youtu.be/` host part), which refutes the claim as
stated; for the canonical host form the id is extracted exactly. -/

/-- First-success choice succeeds as soon as its first alternative does. -/
theorem oOr_some {a b : Option Caps} {r : Caps} (h : a = some r) : oOr a b = some r := by
  rw [h]
  rfl

/-- A greedy star over a class of characters covering the whole input
consumes everything when the continuation accepts the empty rest. -/
theorem matchStarG_all {p : Char → Bool} {s : List Char} {caps : Caps}
    {k : List Char → Caps → Option Caps} {r : Caps}
    (hs : ∀ c ∈ s, p c = true) (hk : k [] caps = some r) :
    matchStarG p s caps k = some r := by
  induction s with
  | nil => exact hk
  | cons x t ih =>
    rw [matchStarG, if_pos (hs x (List.mem_cons_self _ _))]
    exact oOr_some (ih (fun c hc => hs c (List.mem_cons_of_mem _ hc)))

/-- A greedy star fails when the continuation fails on every suffix. -/
theorem matchStarG_none {p : Char → Bool} {s : List Char} {caps : Caps}
    {k : List Char → Caps → Option Caps}
    (hk : ∀ s2 caps2, s2 <:+ s → k s2 caps2 = none) :
    matchStarG p s caps k = none := by
  induction s with
  | nil => exact hk [] caps (List.suffix_refl _)
  | cons x t ih =>
    rw [matchStarG]
    by_cases hp : p x
    · rw [if_pos hp,
        ih (fun s2 c2 hs2 => hk s2 c2 (hs2.trans (List.suffix_cons x t))),
        hk (x :: t) caps (List.suffix_refl _)]
      rfl
    · rw [if_neg hp]
      exact hk (x :: t) caps (List.suffix_refl _)

/-- An identifier character is not `?` or `&`. -/
theorem idChar_not_qAmp (c : Char) (h : idChar c = true) : qAmp c = false := by
  cases hq : qAmp c with
  | false => rfl
  | true =>
    simp only [qAmp, decide_eq_true_eq, Bool.decide_or] at hq
    rcases Bool.or_eq_true_iff.mp hq with h1 | h1
    · rw [of_decide_eq_true h1] at h
      exact absurd h (by decide)
    · rw [of_decide_eq_true h1] at h
      exact absurd h (by decide)

/-- An identifier character is not a slash. -/
theorem idChar_ne_slash (c : Char) (h : idChar c = true) : c ≠ '/' := by
  intro hc
  rw [hc] at h
  exact absurd h (by decide)

/-- The `user/video/`-style inner alternative can never match the rest of
a `watch?v=` URL whose id part has only identifier characters: it demands
a further slash and there is none. -/
theorem videoBranchPath_none (X : List Char) (hX : ∀ c ∈ X, idChar c = true)
    (k : List Char → Caps → Option Caps) (caps : Caps) :
    reM videoBranchPath (("watch?v=".data : List Char) ++ X) caps k = none := by
  have h0 : reM videoBranchPath (("watch?v=".data : List Char) ++ X) caps k =
      matchStarG notSlashWs (("atch?v=".data : List Char) ++ X) caps
        (fun s3 c3 =>
          reM (.seq (strLit "/") (.seq (.cls notWs) (.seq (.starG notWs) (strLit "/"))))
            s3 c3 k) := rfl
  rw [h0]
  apply matchStarG_none
  intro s2 caps2 hs2
  have h1 : reM (.seq (strLit "/") (.seq (.cls notWs) (.seq (.starG notWs) (strLit "/"))))
      s2 caps2 k =
      (if litPrefix ("/".data) s2 then
        reM (.seq (.cls notWs) (.seq (.starG notWs) (strLit "/")))
          (s2.drop ("/".data).length) caps2 k
      else none) := rfl
  rw [h1]
  have hpre : litPrefix ("/".data) s2 = false := by
    rcases s2 with _ | ⟨c, r⟩
    · rfl
    · have hc : c ∈ ("atch?v=".data : List Char) ++ X :=
        hs2.subset (List.mem_cons_self _ _)
      have hcne : c ≠ '/' := by
        rcases List.mem_append.mp hc with h | h
        · simp at h
          rcases h with rfl | rfl | rfl | rfl | rfl | rfl | rfl <;> decide
        · exact idChar_ne_slash c (hX c h)
      have hbe : ('/' == c) = false := by
        simp only [beq_eq_false_iff_ne]
        exact fun he => hcne he.symm
      simp [litPrefix, hbe]
  rw [hpre]
  rfl

/-- The final capture group consumes the entire identifier tail. -/
theorem group_star_all (X : List Char) (hX : ∀ c ∈ X, idChar c = true) :
    reM (.group 1 (.starG idChar)) X [] reAccept = some [(1, X)] := by
  have h0 : reM (.group 1 (.starG idChar)) X [] reAccept =
      matchStarG idChar X []
        (fun s2 c2 => reAccept s2 ((1, X.take (X.length - s2.length)) :: c2)) := rfl
  rw [h0]
  apply matchStarG_all hX
  show some [(1, X.take (X.length - 0))] = some [(1, X)]
  rw [Nat.sub_zero, List.take_length]

/-- The `\S*?[?&]v=` alternative succeeds on the rest of a `watch?v=` URL,
capturing exactly the identifier tail. -/
theorem videoBranchQuery_some (X : List Char) (hX : ∀ c ∈ X, idChar c = true) :
    reM videoBranchQuery (("watch?v=".data : List Char) ++ X) []
      (fun s4 c4 => reM (.group 1 (.starG idChar)) s4 c4 reAccept) = some [(1, X)] := by
  show matchStarL notWs ('?' :: 'v' :: '=' :: X) []
    (fun s2 c2 =>
      reM (.seq (.cls qAmp) (strLit "v=")) s2 c2
        (fun s4 c4 => reM (.group 1 (.starG idChar)) s4 c4 reAccept)) = some [(1, X)]
  rw [matchStarL]
  apply oOr_some
  show reM (.group 1 (.starG idChar)) X [] reAccept = some [(1, X)]
  exact group_star_all X hX

/-- The video pattern matches the canonical watch URL at position 0 and
captures exactly the identifier tail. -/
theorem video_match_watchurl (X : List Char) (hX : ∀ c ∈ X, idChar c = true) :
    reM videoRe (("https://www.youtube.com/watch?v=".data : List Char) ++ X) [] reAccept =
      some [(1, X)] := by
  have hInner : oOr
      (reM videoBranchPath (("watch?v=".data : List Char) ++ X) []
        (fun s4 c4 => reM (.group 1 (.starG idChar)) s4 c4 reAccept))
      (reM videoBranchQuery (("watch?v=".data : List Char) ++ X) []
        (fun s4 c4 => reM (.group 1 (.starG idChar)) s4 c4 reAccept)) = some [(1, X)] := by
    rw [videoBranchPath_none X hX]
    exact videoBranchQuery_some X hX
  have hHost : reM
      (.seq (.alt (.seq (strLit "youtube.com/") videoInnerAlt) (strLit "youtu.be/"))
        (.group 1 (.starG idChar)))
      (("youtube.com/watch?v=".data : List Char) ++ X) [] reAccept = some [(1, X)] := by
    show oOr (oOr
      (reM videoBranchPath (("watch?v=".data : List Char) ++ X) []
        (fun s4 c4 => reM (.group 1 (.starG idChar)) s4 c4 reAccept))
      (reM videoBranchQuery (("watch?v=".data : List Char) ++ X) []
        (fun s4 c4 => reM (.group 1 (.starG idChar)) s4 c4 reAccept))) none = some [(1, X)]
    exact oOr_some hInner
  show oOr (oOr (oOr
      (reM (.seq (.alt (.seq (strLit "youtube.com/") videoInnerAlt) (strLit "youtu.be/"))
        (.group 1 (.starG idChar)))
        (("youtube.com/watch?v=".data : List Char) ++ X) [] reAccept)
      (reM (.seq (.alt (.seq (strLit "youtube.com/") videoInnerAlt) (strLit "youtu.be/"))
        (.group 1 (.starG idChar)))
        (("www.youtube.com/watch?v=".data : List Char) ++ X) [] reAccept))
      none)
    (reM (.seq (.opt (strLit "www."))
        (.seq (.alt (.seq (strLit "youtube.com/") videoInnerAlt) (strLit "youtu.be/"))
          (.group 1 (.starG idChar))))
      (("https://www.youtube.com/watch?v=".data : List Char) ++ X) [] reAccept)
    = some [(1, X)]
  exact oOr_some (oOr_some (oOr_some hHost))

/-- The unanchored search finds the position-0 match. -/
theorem video_search_watchurl (X : List Char) (hX : ∀ c ∈ X, idChar c = true) :
    reSearch videoRe (("https://www.youtube.com/watch?v=".data : List Char) ++ X) =
      some [(1, X)] := by
  show oOr
    (reM videoRe (("https://www.youtube.com/watch?v=".data : List Char) ++ X) [] reAccept)
    (reSearch videoRe (("ttps://www.youtube.com/watch?v=".data : List Char) ++ X))
    = some [(1, X)]
  exact oOr_some (video_match_watchurl X hX)

/-- Head unfolding of the playlist pattern. -/
theorem reM_playlist_cons (x : Char) (t : List Char) :
    reM playlistRe (x :: t) [] reAccept =
      (if qAmp x then
        reM (.seq (strLit "list=") (.group 1 (.seq (.cls idChar) (.starG idChar))))
          t [] reAccept
      else none) := rfl

/-- The playlist pattern fails at a head position whose tail does not
continue with `list=`. -/
theorem reM_playlist_nolist (x : Char) (t : List Char)
    (hl : litPrefix ("list=".data) t = false) :
    reM playlistRe (x :: t) [] reAccept = none := by
  rw [reM_playlist_cons]
  by_cases hq : qAmp x
  · rw [if_pos hq]
    have h2 : reM (.seq (strLit "list=") (.group 1 (.seq (.cls idChar) (.starG idChar))))
        t [] reAccept =
        (if litPrefix ("list=".data) t then
          reM (.group 1 (.seq (.cls idChar) (.starG idChar)))
            (t.drop ("list=".data).length) [] reAccept
        else none) := rfl
    rw [h2, hl]
    rfl
  · rw [if_neg hq]

/-- The playlist search skips any block of non-`?`/`&` characters. -/
theorem reSearch_playlist_skip :
    ∀ (s1 tail : List Char), (∀ c ∈ s1, qAmp c = false) →
      reSearch playlistRe tail = none → reSearch playlistRe (s1 ++ tail) = none := by
  intro s1
  induction s1 with
  | nil => intro tail _ h; exact h
  | cons x t ih =>
    intro tail hq htail
    show oOr (reM playlistRe (x :: (t ++ tail)) [] reAccept)
      (reSearch playlistRe (t ++ tail)) = none
    rw [reM_playlist_cons, hq x (List.mem_cons_self _ _),
      ih tail (fun c hc => hq c (List.mem_cons_of_mem _ hc)) htail]
    rfl

/-- The playlist pattern matches nowhere in a canonical watch URL whose
id part has only identifier characters. -/
theorem playlist_none_watchurl (X : List Char) (hX : ∀ c ∈ X, idChar c = true) :
    reSearch playlistRe (("https://www.youtube.com/watch?v=".data : List Char) ++ X) =
      none := by
  have hXnone : reSearch playlistRe X = none := by
    have h := reSearch_playlist_skip X []
      (fun c hc => idChar_not_qAmp c (hX c hc)) rfl
    simpa using h
  have h3 : reSearch playlistRe ('v' :: '=' :: X) = none :=
    reSearch_playlist_skip ['v', '='] X (by decide) hXnone
  have h4 : reSearch playlistRe ('?' :: 'v' :: '=' :: X) = none := by
    show oOr (reM playlistRe ('?' :: 'v' :: '=' :: X) [] reAccept)
      (reSearch playlistRe ('v' :: '=' :: X)) = none
    rw [reM_playlist_nolist '?' ('v' :: '=' :: X) rfl, h3]
    rfl
  exact reSearch_playlist_skip ("https://www.youtube.com/watch".data)
    ('?' :: 'v' :: '=' :: X) (by decide) h4

/-- Claim C3 (counterexample): the URL `"watch?v=X"` contains `watch?v=X`
but resolution fails — the video pattern requires a host part. -/
theorem claim_C3_counterexample :
    GetVideoOrPlaylistId "watch?v=X" =
      .error "invalid YouTube URL, can\x27t get video or playlist ID: \x27watch?v=X\x27" ∧
    videoIdOf "watch?v=X" = "" :=
  ⟨rfl, rfl⟩

/-- Claim C3 (amended): for every non-empty identifier string X, the URL
`https://www.youtube.com/watch?v=X` resolves to videoId X (and no
playlist id). -/
theorem claim_C3_watch_url (X : String) (hX : ∀ c ∈ X.data, idChar c = true)
    (hne : X ≠ "") :
    GetVideoOrPlaylistId ("https://www.youtube.com/watch?v=" ++ X) = .ok (X, "") := by
  have hsearch : reSearch videoRe ("https://www.youtube.com/watch?v=" ++ X).data =
      some [(1, X.data)] := video_search_watchurl X.data hX
  have hvid : videoIdOf ("https://www.youtube.com/watch?v=" ++ X) = X := by
    rw [videoIdOf, findGroup1, hsearch]
    rfl
  have hplre : reSearch playlistRe ("https://www.youtube.com/watch?v=" ++ X).data =
      none := playlist_none_watchurl X.data hX
  have hpl : playlistIdOf ("https://www.youtube.com/watch?v=" ++ X) = "" := by
    rw [playlistIdOf, findGroup1, hplre]
  rw [GetVideoOrPlaylistId, hvid, hpl]
  rw [if_neg (fun h => hne h.1)]

/-- Witness for C3 at the id `dQw4w9WgXcQ`. -/
theorem claim_C3_witness :
    GetVideoOrPlaylistId ("https://www.youtube.com/watch?v=" ++ "dQw4w9WgXcQ") =
      .ok ("dQw4w9WgXcQ", "") :=
  claim_C3_watch_url "dQw4w9WgXcQ" (by decide) (by decide)

/-! ### C6: the transcript never contains the apostrophe entity -/

/-- The entity pattern `&#39;` as characters. -/
def aposEntity : List Char := ['&', '#', '3', '9', ';']

/-- Decomposition of an infix of a concatenation: it lies in the left
part, lies in the right part, or straddles the boundary. -/
theorem infix_append_cases {p a b : List Char} (h : p <:+: a ++ b) :
    p <:+: a ∨ p <:+: b ∨
      ∃ s1 s2, p = s1 ++ s2 ∧ s1 ≠ [] ∧ s2 ≠ [] ∧ s1 <:+ a ∧ s2 <+: b := by
  obtain ⟨t, u, htu⟩ := h
  rcases List.append_eq_append_iff.mp htu with ⟨w, hw1, _⟩ | ⟨w, hw1, hw2⟩
  · left
    exact ⟨t, w, hw1.symm⟩
  · rcases List.append_eq_append_iff.mp hw1 with ⟨v, hv1, hv2⟩ | ⟨v, hv1, hv2⟩
    · rcases eq_or_ne w [] with hw | hw
      · left
        subst hw
        refine ⟨t, [], ?_⟩
        simp at hv2 ⊢
        rw [hv2, hv1]
      · rcases eq_or_ne v [] with hv | hv
        · right; left
          subst hv
          simp at hv2
          exact ⟨[], u, by simp [hv2, hw2]⟩
        · right; right
          exact ⟨v, w, hv2, hv, hw, ⟨t, hv1.symm⟩, ⟨u, hw2.symm⟩⟩
    · right; left
      exact ⟨v, u, by simp [hw2, hv2]⟩

/-- A non-empty suffix shares the last element of the whole list. -/
theorem getLast?_of_suffix {s a : List Char} (hs : s <:+ a) (hne : s ≠ []) :
    a.getLast? = s.getLast? := by
  obtain ⟨t, rfl⟩ := hs
  rw [List.getLast?_append]
  rcases s with _ | ⟨x, s'⟩
  · exact absurd rfl hne
  · rcases h : (x :: s').getLast? with _ | y
    · simp at h
    · rfl

/-- A non-empty prefix shares the head of the whole list. -/
theorem head?_of_prefix {s b : List Char} (hs : s <+: b) (hne : s ≠ []) :
    b.head? = s.head? := by
  obtain ⟨t, rfl⟩ := hs
  rcases s with _ | ⟨x, s'⟩
  · exact absurd rfl hne
  · rfl

/-- A prefix of the unescaped text containing no literal apostrophe is
already a prefix of the original text. -/
theorem prefix_of_replaceApos :
    ∀ (r X : List Char), '\x27' ∉ X → X <+: replaceApos r → X <+: r := by
  intro r
  induction r using replaceApos.induct with
  | case1 rest ih =>
    intro X hX hpre
    rw [replaceApos.eq_1] at hpre
    cases X with
    | nil => exact List.nil_prefix
    | cons x X' =>
      rcases List.cons_prefix_cons.mp hpre with ⟨hx, _⟩
      subst hx
      exact absurd (List.mem_cons_self _ _) hX
  | case2 c rest hne ih =>
    intro X hX hpre
    rw [replaceApos.eq_2 c rest hne] at hpre
    cases X with
    | nil => exact List.nil_prefix
    | cons x X' =>
      rcases List.cons_prefix_cons.mp hpre with ⟨hx, hp'⟩
      subst hx
      exact List.cons_prefix_cons.mpr
        ⟨rfl, ih X' (fun hm => hX (List.mem_cons_of_mem _ hm)) hp'⟩
  | case3 =>
    intro X hX hpre
    exact hpre

/-- The entity never begins the unescaped text. -/
theorem replaceApos_not_prefix (r : List Char) : ¬ aposEntity <+: replaceApos r := by
  intro h
  have h2 := prefix_of_replaceApos r aposEntity (by decide) h
  obtain ⟨t, ht⟩ := h2
  rw [show aposEntity ++ t = '&' :: '#' :: '3' :: '9' :: ';' :: t from rfl] at ht
  rw [← ht, replaceApos.eq_1] at h
  rcases List.cons_prefix_cons.mp h with ⟨hx, _⟩
  exact absurd hx (by decide)

/-- The entity never occurs anywhere in the unescaped text. -/
theorem replaceApos_not_infix (r : List Char) : ¬ aposEntity <:+: replaceApos r := by
  induction r using replaceApos.induct with
  | case1 rest ih =>
    rw [replaceApos.eq_1]
    intro h
    rcases List.infix_cons_iff.mp h with h | h
    · rcases List.cons_prefix_cons.mp h with ⟨hx, _⟩
      exact absurd hx (by decide)
    · exact ih h
  | case2 c rest hne ih =>
    rw [replaceApos.eq_2 c rest hne]
    intro h
    rcases List.infix_cons_iff.mp h with h | h
    · rw [← replaceApos.eq_2 c rest hne] at h
      exact replaceApos_not_prefix (c :: rest) h
    · exact ih h
  | case3 =>
    intro h
    have := List.infix_nil.mp h
    exact absurd this (by decide)

/-- The boolean scanner agrees with the infix relation. -/
theorem hasAposEntity_false (s : List Char) (h : ¬ aposEntity <:+: s) :
    hasAposEntity s = false := by
  induction s using hasAposEntity.induct with
  | case1 rest =>
    exact absurd ⟨[], rest, rfl⟩ h
  | case2 c rest hne ih =>
    rw [hasAposEntity.eq_2 c rest hne]
    exact ih (fun hi => h (List.infix_cons_iff.mpr (Or.inr hi)))
  | case3 => rfl

/-- Shifting the accumulator out of a string-append fold. -/
theorem string_foldl_append (l : List String) (a : String) :
    List.foldl (fun r s => r ++ s) a l = a ++ List.foldl (fun r s => r ++ s) "" l := by
  induction l generalizing a with
  | nil => simp
  | cons x l ih =>
    rw [List.foldl_cons, List.foldl_cons, ih (a ++ x), ih ("" ++ x)]
    simp [String.append_assoc]

/-- The transcript builder in closed form: the fold appends one unescaped
text plus a trailing space per node. -/
theorem grabTranscript_foldl (texts : List String) (acc : String) :
    texts.foldl (fun b t => b ++ replaceAposS t ++ " ") acc =
      acc ++ String.join (texts.map (fun t => replaceAposS t ++ " ")) := by
  induction texts generalizing acc with
  | nil => simp [String.join]
  | cons t ts ih =>
    rw [List.foldl_cons, ih]
    show _ = acc ++ List.foldl (fun r s => r ++ s) "" _
    rw [List.map_cons, List.foldl_cons, string_foldl_append _ ("" ++ (replaceAposS t ++ " "))]
    simp [String.append_assoc]
    rfl

/-- Invariant of the builder fold: starting from an entity-free
accumulator that is empty or ends in a space, the entity never appears. -/
theorem no_entity_invariant :
    ∀ (texts : List String) (acc : String),
      ¬ aposEntity <:+: acc.data →
      (acc.data = [] ∨ acc.data.getLast? = some ' ') →
      ¬ aposEntity <:+:
        (texts.foldl (fun b t => b ++ replaceAposS t ++ " ") acc).data := by
  intro texts
  induction texts with
  | nil => intro acc hA _; exact hA
  | cons t ts ih =>
    intro acc hA hE
    rw [List.foldl_cons]
    have hdata : (acc ++ replaceAposS t ++ " ").data =
        acc.data ++ (replaceApos t.data ++ [' ']) := by
      show acc.data ++ (replaceAposS t).data ++ " ".data = _
      rw [List.append_assoc]
      rfl
    refine ih (acc ++ replaceAposS t ++ " ") ?_ ?_
    · rw [hdata]
      intro h
      rcases infix_append_cases h with h | h | ⟨s1, s2, hp, h1, h2, hsu, hpr⟩
      · exact hA h
      · rcases infix_append_cases h with h | h | ⟨s1, s2, hp, h1, h2, hsu, hpr⟩
        · exact replaceApos_not_infix t.data h
        · have := h.length_le
          simp [aposEntity] at this
        · have hh := head?_of_prefix hpr h2
          have : ' ' ∈ s2 := by
            rcases s2 with _ | ⟨y, s2'⟩
            · exact absurd rfl h2
            · simp at hh
              rw [hh]
              exact List.mem_cons_self _ _
          have hmem : ' ' ∈ aposEntity := by
            rw [hp]
            exact List.mem_append_right _ this
          exact absurd hmem (by decide)
      · rcases hE with hE | hE
        · rw [hE] at hsu
          obtain ⟨w, hw⟩ := hsu
          have := congrArg List.length hw
          simp at this
          exact h1 this.2
        · have hl := getLast?_of_suffix hsu h1
          rw [hE] at hl
          have hm : ' ' ∈ s1 := List.mem_of_mem_getLast? (by rw [← hl]; rfl)
          have hmem : ' ' ∈ aposEntity := by
            rw [hp]
            exact List.mem_append_left _ hm
          exact absurd hmem (by decide)
    · right
      rw [hdata, ← List.append_assoc]
      exact List.getLast?_concat _

/-- Counterexample for C6: the builder leaves one trailing space, so the
result is not the texts joined by single separating spaces. -/
theorem claim_C6_counterexample :
    GrabTranscript ["a", "b"] = "a b " ∧ specTranscript ["a", "b"] = "a b" ∧
      GrabTranscript ["a", "b"] ≠ specTranscript ["a", "b"] :=
  ⟨rfl, rfl, by decide⟩

/-- Claim C6 (amended): the plain transcript is the concatenation of each
caption node's unescaped text followed by a single space (so texts are
space-separated with one trailing space), and the returned text never
contains the literal entity `&#39;`. -/
theorem claim_C6_entity_unescaped (texts : List String) :
    GrabTranscript texts = String.join (texts.map (fun t => replaceAposS t ++ " ")) ∧
    hasAposEntity (GrabTranscript texts).data = false := by
  constructor
  · rw [GrabTranscript, grabTranscript_foldl]
    rfl
  · refine hasAposEntity_false _ ?_
    refine no_entity_invariant texts "" ?_ (Or.inl rfl)
    intro h
    have := List.infix_nil.mp h
    exact absurd this (by decide)

/-- Witness for C9: two oracle pairs agreeing at "en" yield equal results. -/
theorem claim_C9_witness :
    Grab
      ⟨fun _ => .error "m", fun _ => .ok 1, fun _ => .ok [],
       fun v _ => .ok v, fun v _ => .ok v⟩
      "https://youtu.be/abc" ⟨false, true, false, false, "fr", false⟩ =
    Grab
      ⟨fun _ => .error "m", fun _ => .ok 1, fun _ => .ok [],
       fun v l => if l = "en" then .ok v else .error "no", fun v _ => .ok v⟩
      "https://youtu.be/abc" ⟨false, true, false, false, "fr", false⟩ :=
  claim_C9_fixed_language.2
    ⟨fun _ => .error "m", fun _ => .ok 1, fun _ => .ok [], fun v _ => .ok v,
     fun v _ => .ok v⟩
    (fun v _ => .ok v) (fun v l => if l = "en" then .ok v else .error "no")
    (fun v _ => .ok v) (fun v _ => .ok v)
    "https://youtu.be/abc" ⟨false, true, false, false, "fr", false⟩
    (fun v => by simp) (fun v => rfl)

/-! ### C8: CSV export/re-read roundtrip

The Go csv reader converts every `\r\n` of its input to `\n` (documented),
so a title containing a CRLF does not survive the roundtrip; with
CRLF-free fields the roundtrip is the identity. -/

/-- Boolean scanner for a CRLF sequence. -/
def hasCRLF : List Char → Bool
  | '\r' :: '\n' :: _ => true
  | _ :: t => hasCRLF t
  | [] => false

/-- CRLF normalisation is the identity on CRLF-free input. -/
theorem normCRLF_of_no_crlf : ∀ s : List Char, hasCRLF s = false → normCRLF s = s := by
  intro s
  induction s using normCRLF.induct with
  | case1 rest ih =>
    intro h
    rw [hasCRLF.eq_1] at h
    exact Bool.noConfusion h
  | case2 c rest hne ih =>
    intro h
    rw [hasCRLF.eq_2 c rest hne] at h
    rw [normCRLF.eq_2 c rest hne, ih h]
  | case3 =>
    intro h
    rfl

/-- Concatenation has no CRLF when both halves have none and the boundary
is not an `\r`/`\n` pair. -/
theorem hasCRLF_append_false :
    ∀ {a b : List Char}, hasCRLF a = false → hasCRLF b = false →
      (a.getLast? ≠ some '\r' ∨ b.head? ≠ some '\n') →
      hasCRLF (a ++ b) = false := by
  intro a
  induction a using hasCRLF.induct with
  | case1 rest =>
    intro b ha _ _
    rw [hasCRLF.eq_1] at ha
    exact Bool.noConfusion ha
  | case2 c rest hne ih =>
    intro b ha hb hx
    rw [hasCRLF.eq_2 c rest hne] at ha
    have hne2 : ∀ (r1 : List Char), c = '\r' → rest ++ b = '\n' :: r1 → False := by
      intro r1 hc hr
      rcases rest with _ | ⟨d, rest2⟩
      · rcases hx with hx | hx
        · exact hx (by rw [hc]; rfl)
        · apply hx
          rw [show ([] : List Char) ++ b = b from rfl] at hr
          rw [hr]
          rfl
      · rcases List.cons.injEq .. ▸ hr with ⟨hd, _⟩
        have hd2 : d = '\n' := by
          have := congrArg List.head? hr
          simpa using this
        exact hne rest2 hc (by rw [hd2])
    show hasCRLF (c :: (rest ++ b)) = false
    rw [hasCRLF.eq_2 c (rest ++ b) hne2]
    refine ih ha hb ?_
    rcases rest with _ | ⟨d, rest2⟩
    · left
      simp
    · rcases hx with hx | hx
      · left
        simpa using hx
      · right
        exact hx
  | case3 =>
    intro b _ hb _
    exact hb

/-- A list of characters none of which is `\r` has no CRLF. -/
theorem hasCRLF_of_no_cr : ∀ {f : List Char}, (∀ c ∈ f, c ≠ '\r') → hasCRLF f = false := by
  intro f
  induction f using hasCRLF.induct with
  | case1 rest =>
    intro h
    exact absurd rfl (h '\r' (List.mem_cons_self _ _))
  | case2 c rest hne ih =>
    intro h
    rw [hasCRLF.eq_2 c rest hne]
    exact ih (fun d hd => h d (List.mem_cons_of_mem _ hd))
  | case3 =>
    intro _
    rfl

/-- The head of a quote-doubled list is a newline only if the original's is. -/
theorem escapeQuotes_head_ne_nl :
    ∀ t : List Char, t.head? ≠ some '\n' → (escapeQuotes t).head? ≠ some '\n' := by
  intro t
  induction t using escapeQuotes.induct with
  | case1 => intro h; exact h
  | case2 t2 ih =>
    intro _
    rw [escapeQuotes.eq_2]
    simp
  | case3 c t2 hne ih =>
    intro h
    rw [escapeQuotes.eq_3 c t2 hne]
    exact h

/-- Quote doubling never creates a CRLF. -/
theorem hasCRLF_escapeQuotes :
    ∀ {f : List Char}, hasCRLF f = false → hasCRLF (escapeQuotes f) = false := by
  intro f
  induction f using escapeQuotes.induct with
  | case1 =>
    intro _
    rfl
  | case2 t ih =>
    intro h
    rw [hasCRLF.eq_2 _ _ (fun r1 hc _ => absurd hc (by decide))] at h
    rw [escapeQuotes.eq_2,
      hasCRLF.eq_2 _ _ (fun r1 hc _ => absurd hc (by decide)),
      hasCRLF.eq_2 _ _ (fun r1 hc _ => absurd hc (by decide))]
    exact ih h
  | case3 c t hne ih =>
    intro h
    rw [escapeQuotes.eq_3 c t hne]
    by_cases hc : c = '\r'
    · subst hc
      have hth : t.head? ≠ some '\n' := by
        intro hh
        rcases t with _ | ⟨d, t2⟩
        · simp at hh
        · simp at hh
          subst hh
          rw [hasCRLF.eq_1] at h
          exact Bool.noConfusion h
      have hesc : (escapeQuotes t).head? ≠ some '\n' := escapeQuotes_head_ne_nl t hth
      rw [hasCRLF.eq_2 _ _ (fun r1 _ he => hesc (by rw [he]; rfl))]
      refine ih ?_
      rw [hasCRLF.eq_2 _ _ (fun r1 _ ht => hth (by rw [ht]; rfl))] at h
      exact h
    · rw [hasCRLF.eq_2 _ _ (fun r1 hcc _ => hc hcc)]
      rw [hasCRLF.eq_2 _ _ (fun r1 hcc _ => hc hcc)] at h
      exact ih h

/-- An unquoted field contains neither comma, quote, CR nor LF. -/
theorem no_special_of_bare {f : List Char} (h : fieldNeedsQuotes f = false) :
    ∀ c ∈ f, c ≠ ',' ∧ c ≠ '"' ∧ c ≠ '\r' ∧ c ≠ '\n' := by
  intro c hc
  rcases eq_or_ne f [] with rfl | h0
  · exact absurd hc (List.not_mem_nil c)
  · rw [fieldNeedsQuotes.eq_def, if_neg h0] at h
    by_cases h1 : f = ['\\', '.']
    · rw [if_pos h1] at h
      exact Bool.noConfusion h
    · rw [if_neg h1] at h
      by_cases h2 : f.any (fun c => c = ',' ∨ c = '"' ∨ c = '\r' ∨ c = '\n') = true
      · rw [if_pos h2] at h
        exact Bool.noConfusion h
      · have h3 : ∀ hor : c = ',' ∨ c = '"' ∨ c = '\r' ∨ c = '\n', False :=
          fun hor => h2 (List.any_eq_true.mpr ⟨c, hc, decide_eq_true hor⟩)
        exact ⟨fun he => h3 (Or.inl he), fun he => h3 (Or.inr (Or.inl he)),
          fun he => h3 (Or.inr (Or.inr (Or.inl he))),
          fun he => h3 (Or.inr (Or.inr (Or.inr he)))⟩

/-- An encoded field has no CRLF and does not end in a CR. -/
theorem encodeField_no_crlf {f : List Char} (h : hasCRLF f = false) :
    hasCRLF (encodeField f) = false ∧ (encodeField f).getLast? ≠ some '\r' := by
  rw [encodeField]
  by_cases hq : fieldNeedsQuotes f
  · rw [if_pos hq]
    constructor
    · show hasCRLF ('"' :: (escapeQuotes f ++ ['"'])) = false
      have hb : hasCRLF (escapeQuotes f ++ ['"']) = false :=
        hasCRLF_append_false (hasCRLF_escapeQuotes h) rfl (Or.inr (by simp))
      rw [hasCRLF.eq_2 _ _ (fun r1 hcc _ => absurd hcc (by decide))]
      exact hb
    · show ('"' :: (escapeQuotes f ++ ['"'])).getLast? ≠ some '\r'
      have hr : ('"' :: (escapeQuotes f ++ ['"'])) = ('"' :: escapeQuotes f) ++ ['"'] := by
        simp
      rw [hr, List.getLast?_concat]
      simp
  · rw [if_neg hq]
    have hscr : ∀ c ∈ f, c ≠ '\r' :=
      fun c hc => (no_special_of_bare (Bool.eq_false_iff.mpr hq) c hc).2.2.1
    refine ⟨hasCRLF_of_no_cr hscr, ?_⟩
    intro hl
    exact hscr '\r' (List.mem_of_mem_getLast? (show '\r' ∈ f.getLast? by rw [hl]; rfl)) rfl

/-- A two-field record as the writer lays it out. -/
theorem encodeRecord_two (f1 f2 : List Char) :
    encodeRecord [f1, f2] = (encodeField f1 ++ [',']) ++ (encodeField f2 ++ ['\n']) := by
  simp [encodeRecord, List.intercalate]

/-- An encoded two-field record has no CRLF and ends in the newline. -/
theorem encodeRecord_no_crlf {f1 f2 : List Char}
    (h1 : hasCRLF f1 = false) (h2 : hasCRLF f2 = false) :
    hasCRLF (encodeRecord [f1, f2]) = false ∧
      (encodeRecord [f1, f2]).getLast? = some '\n' := by
  obtain ⟨ha1, hb1⟩ := encodeField_no_crlf h1
  obtain ⟨ha2, hb2⟩ := encodeField_no_crlf h2
  rw [encodeRecord_two]
  constructor
  · refine hasCRLF_append_false ?_ ?_ ?_
    · exact hasCRLF_append_false ha1 rfl (Or.inl hb1)
    · exact hasCRLF_append_false ha2 rfl (Or.inl hb2)
    · left
      rw [List.getLast?_concat]
      simp
  · have hr : (encodeField f1 ++ [',']) ++ (encodeField f2 ++ ['\n']) =
        ((encodeField f1 ++ [',']) ++ encodeField f2) ++ ['\n'] := by
      simp
    rw [hr, List.getLast?_concat]

/-- The concatenated body rows have no CRLF. -/
theorem rows_no_crlf (videos : List VideoMeta)
    (hv : ∀ v ∈ videos, hasCRLF v.Id.data = false ∧ hasCRLF v.Title.data = false) :
    hasCRLF ((videos.map
      (fun v => encodeRecord [v.Id.data, v.Title.data])).flatten) = false := by
  induction videos with
  | nil => rfl
  | cons v vs ih =>
    show hasCRLF (encodeRecord [v.Id.data, v.Title.data] ++
      (vs.map (fun v => encodeRecord [v.Id.data, v.Title.data])).flatten) = false
    obtain ⟨hid, hti⟩ := hv v (List.mem_cons_self _ _)
    obtain ⟨hr, hl⟩ := encodeRecord_no_crlf hid hti
    refine hasCRLF_append_false hr (ih (fun w hw => hv w (List.mem_cons_of_mem _ hw))) ?_
    left
    rw [hl]
    simp

/-- The whole exported file content has no CRLF. -/
theorem save_no_crlf (videos : List VideoMeta)
    (hv : ∀ v ∈ videos, hasCRLF v.Id.data = false ∧ hasCRLF v.Title.data = false) :
    hasCRLF (SaveVideosToCSV videos).data = false := by
  show hasCRLF (encodeRecord ["VideoID".data, "Title".data] ++
    (videos.map (fun v => encodeRecord [v.Id.data, v.Title.data])).flatten) = false
  exact hasCRLF_append_false (by decide) (rows_no_crlf videos hv) (Or.inl (by decide))

/-- Reader step at a field boundary on an ordinary character. -/
theorem csvStep_atField_other {c : Char} (h1 : c ≠ '"') (h2 : c ≠ ',') (h3 : c ≠ '\n')
    (recs : List (List String)) (cur : List String) (fld : List Char) :
    csvStep ⟨recs, cur, fld, .atField, false⟩ c = ⟨recs, cur, [c], .bare, false⟩ := by
  show (if c = '"' then (⟨recs, cur, fld, .quoted, false⟩ : CsvState)
    else if c = ',' then ⟨recs, cur ++ [""], fld, .atField, false⟩
    else if c = '\n' then
      (match cur with
        | [] => (⟨recs, cur, fld, .atField, false⟩ : CsvState)
        | _ => ⟨recs ++ [cur ++ [""]], [], fld, .atField, false⟩)
    else ⟨recs, cur, [c], .bare, false⟩) = ⟨recs, cur, [c], .bare, false⟩
  rw [if_neg h1, if_neg h2, if_neg h3]

/-- Reader step inside a bare field on an ordinary character. -/
theorem csvStep_bare_other {c : Char} (h1 : c ≠ '"') (h2 : c ≠ ',') (h3 : c ≠ '\n')
    (recs : List (List String)) (cur : List String) (fld : List Char) :
    csvStep ⟨recs, cur, fld, .bare, false⟩ c = ⟨recs, cur, fld ++ [c], .bare, false⟩ := by
  show (if c = '"' then (⟨recs, cur, fld, .bare, true⟩ : CsvState)
    else if c = ',' then ⟨recs, cur ++ [String.mk fld], [], .atField, false⟩
    else if c = '\n' then ⟨recs ++ [cur ++ [String.mk fld]], [], [], .atField, false⟩
    else ⟨recs, cur, fld ++ [c], .bare, false⟩) = ⟨recs, cur, fld ++ [c], .bare, false⟩
  rw [if_neg h1, if_neg h2, if_neg h3]

/-- Reader step inside a quoted field on an ordinary character. -/
theorem csvStep_quoted_other {c : Char} (h1 : c ≠ '"')
    (recs : List (List String)) (cur : List String) (fld : List Char) :
    csvStep ⟨recs, cur, fld, .quoted, false⟩ c = ⟨recs, cur, fld ++ [c], .quoted, false⟩ := by
  show (if c = '"' then (⟨recs, cur, fld, .afterQuote, false⟩ : CsvState)
    else ⟨recs, cur, fld ++ [c], .quoted, false⟩) = ⟨recs, cur, fld ++ [c], .quoted, false⟩
  rw [if_neg h1]

/-- A run of ordinary characters accumulates into the bare field. -/
theorem foldl_bare_run :
    ∀ (cs : List Char), (∀ c ∈ cs, c ≠ '"' ∧ c ≠ ',' ∧ c ≠ '\n') →
      ∀ (recs : List (List String)) (cur : List String) (fld : List Char),
        List.foldl csvStep ⟨recs, cur, fld, .bare, false⟩ cs =
          ⟨recs, cur, fld ++ cs, .bare, false⟩ := by
  intro cs
  induction cs with
  | nil =>
    intro _ recs cur fld
    simp
  | cons c cs ih =>
    intro h recs cur fld
    obtain ⟨hq, hcm, hnl⟩ := h c (List.mem_cons_self _ _)
    rw [List.foldl_cons, csvStep_bare_other hq hcm hnl,
      ih (fun d hd => h d (List.mem_cons_of_mem _ hd)) recs cur (fld ++ [c])]
    simp

/-- A quote-doubled run accumulates verbatim inside a quoted field. -/
theorem foldl_quoted_run :
    ∀ (f : List Char) (recs : List (List String)) (cur : List String) (fld : List Char),
      List.foldl csvStep ⟨recs, cur, fld, .quoted, false⟩ (escapeQuotes f) =
        ⟨recs, cur, fld ++ f, .quoted, false⟩ := by
  intro f
  induction f using escapeQuotes.induct with
  | case1 =>
    intro recs cur fld
    simp [escapeQuotes]
  | case2 t ih =>
    intro recs cur fld
    rw [escapeQuotes.eq_2, List.foldl_cons, List.foldl_cons]
    show List.foldl csvStep ⟨recs, cur, fld ++ ['"'], .quoted, false⟩ (escapeQuotes t) = _
    rw [ih recs cur (fld ++ ['"'])]
    simp
  | case3 c t hne ih =>
    intro recs cur fld
    rw [escapeQuotes.eq_3 c t hne, List.foldl_cons, csvStep_quoted_other hne,
      ih recs cur (fld ++ [c])]
    simp

/-- Parsing one encoded field followed by a comma appends that field. -/
theorem foldl_field_comma (f : List Char) (recs : List (List String)) (cur : List String) :
    List.foldl csvStep ⟨recs, cur, [], .atField, false⟩ (encodeField f ++ [',']) =
      ⟨recs, cur ++ [String.mk f], [], .atField, false⟩ := by
  rw [encodeField]
  by_cases hq : fieldNeedsQuotes f
  · rw [if_pos hq, List.cons_append, List.foldl_cons]
    show List.foldl csvStep ⟨recs, cur, [], .quoted, false⟩
      ((escapeQuotes f ++ ['"']) ++ [',']) = _
    rw [List.append_assoc, List.foldl_append, foldl_quoted_run f recs cur []]
    show (⟨recs, cur ++ [String.mk ([] ++ f)], [], .atField, false⟩ : CsvState) = _
    simp
  · rw [if_neg hq]
    have hsp := no_special_of_bare (Bool.eq_false_iff.mpr hq)
    rcases f with _ | ⟨c0, rest⟩
    · show (⟨recs, cur ++ [""], [], .atField, false⟩ : CsvState) = _
      rfl
    · have hc0 := hsp c0 (List.mem_cons_self _ _)
      rw [List.cons_append, List.foldl_cons,
        csvStep_atField_other hc0.2.1 hc0.1 hc0.2.2.2, List.foldl_append,
        foldl_bare_run rest
          (fun d hd => ⟨(hsp d (List.mem_cons_of_mem _ hd)).2.1,
            (hsp d (List.mem_cons_of_mem _ hd)).1,
            (hsp d (List.mem_cons_of_mem _ hd)).2.2.2⟩) recs cur [c0]]
      show (⟨recs, cur ++ [String.mk ([c0] ++ rest)], [], .atField, false⟩ : CsvState) = _
      simp

/-- Parsing one encoded field followed by a newline ends the record (the
current record already holds at least one field, so the blank-line skip
does not fire). -/
theorem foldl_field_nl (f : List Char) (recs : List (List String))
    (cur : List String) (x : String) :
    List.foldl csvStep ⟨recs, cur ++ [x], [], .atField, false⟩ (encodeField f ++ ['\n']) =
      ⟨recs ++ [(cur ++ [x]) ++ [String.mk f]], [], [], .atField, false⟩ := by
  rw [encodeField]
  by_cases hq : fieldNeedsQuotes f
  · rw [if_pos hq, List.cons_append, List.foldl_cons]
    show List.foldl csvStep ⟨recs, cur ++ [x], [], .quoted, false⟩
      ((escapeQuotes f ++ ['"']) ++ ['\n']) = _
    rw [List.append_assoc, List.foldl_append, foldl_quoted_run f recs (cur ++ [x]) []]
    show (⟨recs ++ [(cur ++ [x]) ++ [String.mk ([] ++ f)]], [], [], .atField, false⟩ :
      CsvState) = _
    simp
  · rw [if_neg hq]
    have hsp := no_special_of_bare (Bool.eq_false_iff.mpr hq)
    rcases f with _ | ⟨c0, rest⟩
    · rcases cur with _ | ⟨c1, cur2⟩
      · show (⟨recs ++ [[x] ++ [""]], [], [], .atField, false⟩ : CsvState) = _
        rfl
      · show (⟨recs ++ [((c1 :: cur2) ++ [x]) ++ [""]], [], [], .atField, false⟩ :
          CsvState) = _
        rfl
    · have hc0 := hsp c0 (List.mem_cons_self _ _)
      rw [List.cons_append, List.foldl_cons,
        csvStep_atField_other hc0.2.1 hc0.1 hc0.2.2.2, List.foldl_append,
        foldl_bare_run rest
          (fun d hd => ⟨(hsp d (List.mem_cons_of_mem _ hd)).2.1,
            (hsp d (List.mem_cons_of_mem _ hd)).1,
            (hsp d (List.mem_cons_of_mem _ hd)).2.2.2⟩) recs (cur ++ [x]) [c0]]
      show (⟨recs ++ [(cur ++ [x]) ++ [String.mk ([c0] ++ rest)]], [], [], .atField, false⟩ :
        CsvState) = _
      simp

/-- Parsing one encoded two-field record appends one parsed record. -/
theorem foldl_record (f1 f2 : List Char) (recs : List (List String)) :
    List.foldl csvStep ⟨recs, [], [], .atField, false⟩ (encodeRecord [f1, f2]) =
      ⟨recs ++ [[String.mk f1, String.mk f2]], [], [], .atField, false⟩ := by
  rw [encodeRecord_two, List.foldl_append, foldl_field_comma f1 recs [],
    foldl_field_nl f2 recs [] (String.mk f1)]
  simp

/-- Parsing all encoded body rows appends all parsed records. -/
theorem foldl_rows :
    ∀ (videos : List VideoMeta) (recs : List (List String)),
      List.foldl csvStep ⟨recs, [], [], .atField, false⟩
        ((videos.map (fun v => encodeRecord [v.Id.data, v.Title.data])).flatten) =
      ⟨recs ++ videos.map (fun v => [v.Id, v.Title]), [], [], .atField, false⟩ := by
  intro videos
  induction videos with
  | nil =>
    intro recs
    simp
  | cons v vs ih =>
    intro recs
    show List.foldl csvStep ⟨recs, [], [], .atField, false⟩
      (encodeRecord [v.Id.data, v.Title.data] ++
        (vs.map (fun v => encodeRecord [v.Id.data, v.Title.data])).flatten) = _
    rw [List.foldl_append, foldl_record, ih]
    show (⟨(recs ++ [[v.Id, v.Title]]) ++ vs.map (fun v => [v.Id, v.Title]), [], [],
      .atField, false⟩ : CsvState) = _
    simp

/-- Claim C8 (counterexample): a title containing a CRLF does not survive
the roundtrip — the reader normalises the CRLF to a bare LF. -/
theorem claim_C8_counterexample :
    readCSV (SaveVideosToCSV [⟨"id1", "a\r\nb", "a_b"⟩]) =
      some [["VideoID", "Title"], ["id1", "a\nb"]] ∧
    ¬(readCSV (SaveVideosToCSV [⟨"id1", "a\r\nb", "a_b"⟩]) =
      some [["VideoID", "Title"], ["id1", "a\r\nb"]]) := by
  exact ⟨rfl, by decide⟩

/-- Claim C8 (amended): the export writes exactly the header row VideoID,
Title followed by one row of raw id and raw title per item in list order,
and for every item list whose ids and titles contain no CRLF sequence,
exporting then re-reading yields exactly the header row followed by the
original rows (an empty item list yields the header row alone). -/
theorem claim_C8_roundtrip (videos : List VideoMeta)
    (hv : ∀ v ∈ videos, hasCRLF v.Id.data = false ∧ hasCRLF v.Title.data = false) :
    readCSV (SaveVideosToCSV videos) =
      some ([["VideoID", "Title"]] ++ videos.map (fun v => [v.Id, v.Title])) := by
  rw [readCSV, normCRLF_of_no_crlf _ (save_no_crlf videos hv)]
  show csvFinish (List.foldl csvStep csvInit
    (encodeRecord ["VideoID".data, "Title".data] ++
      (videos.map (fun v => encodeRecord [v.Id.data, v.Title.data])).flatten)) = _
  rw [List.foldl_append,
    show List.foldl csvStep csvInit (encodeRecord ["VideoID".data, "Title".data]) =
      (⟨[["VideoID", "Title"]], [], [], .atField, false⟩ : CsvState) from rfl,
    foldl_rows videos [["VideoID", "Title"]]]
  rfl

/-- Witness for C8 at the empty list and at a one-item list with quote and
comma in the title. -/
theorem claim_C8_witness :
    readCSV (SaveVideosToCSV []) = some [["VideoID", "Title"]] ∧
    readCSV (SaveVideosToCSV [⟨"v1", "Hello, \"W\"", "h"⟩]) =
      some [["VideoID", "Title"], ["v1", "Hello, \"W\""]] :=
  ⟨by simpa using claim_C8_roundtrip [] (by simp),
   by simpa using claim_C8_roundtrip [⟨"v1", "Hello, \"W\"", "h"⟩] (by decide)⟩

end YoutubePlugin
